import Mathlib

/-!
Verification of the ai-rules-sync synchronization core.

The development embeds, as executable Lean definitions, the parts of the
repository that the specification talks about:

* `src/fileSyncer.ts` (`FileSyncer.syncFiles`, `removeDestination`,
  `copyRulesFromRepo`, `copyRecursive`, `directoryExists`,
  `hasExistingContent`) — the mirror engine;
* `src/rulesManager.ts` (`RulesManager.performInitialSetup`,
  `performInitialSync`, `syncRules`, `handleSyncError`,
  `offerReconfiguration`, `setupPeriodicSync`, `onConfigChanged`) — the
  failure-recovery behaviour;
* `src/gitManager.ts` (`GitManager.ensureRepository`, `fetchRepository`,
  `repositoryExists`) — repository access.

Filesystem state is modelled as a tree of named entries.  Filesystem
faults that the code handles (failure of `fs.rm` / `fs.mkdir` on the
destination) are injected through explicit parameters; all other
filesystem operations are modelled as succeeding.  Log output and
user-facing notifications are modelled explicitly because several claims
are about them.
-/

namespace AiRulesSync

/-- A filesystem tree: a file with string contents, or a directory with a
list of named children.  `fs.readdir` on a real directory yields distinct
names; that invariant is expressed by `wfFuel` below. -/
inductive FsTree where
  | file : String → FsTree
  | dir : List (String × FsTree) → FsTree

/-- `stats.isDirectory()` on a tree node. -/
def FsTree.isDir : FsTree → Bool
  | .dir _ => true
  | .file _ => false

/-- The children of a directory node (empty for a file). -/
def FsTree.entries : FsTree → List (String × FsTree)
  | .file _ => []
  | .dir es => es

/-- Look up the first child with the given name in an entry list. -/
def lookupEntry : List (String × FsTree) → String → Option FsTree
  | [], _ => none
  | (n, t) :: rest, m => if n = m then some t else lookupEntry rest m

/-- Replace the (first) child with the given name, if present. -/
def replaceEntry : List (String × FsTree) → String → FsTree → List (String × FsTree)
  | [], _, _ => []
  | (n, t) :: rest, m, u =>
      if n = m then (n, u) :: rest else (n, t) :: replaceEntry rest m u

/-- `fs.mkdir(path, { recursive: true })` restricted to one level: create an
empty directory child unless an entry of that name already exists. -/
def mkdirp (es : List (String × FsTree)) (n : String) : List (String × FsTree) :=
  match lookupEntry es n with
  | some _ => es
  | none => es ++ [(n, FsTree.dir [])]

/-- Does the second list start with the first? -/
def matchesHead : List Char → List Char → Bool
  | [], _ => true
  | _ :: _, [] => false
  | a :: as, b :: bs => a == b && matchesHead as bs

/-- `String.prototype.startsWith` of JavaScript (equivalently Lean's
`String.startsWith`), computed structurally on the character lists so that
concrete instances reduce inside the kernel. -/
def strStartsWith (s pre : String) : Bool :=
  matchesHead pre.toList s.toList

/-- All strings in the list distinct (the invariant `fs.readdir` provides
for the child names of one directory). -/
def distinctKeys : List String → Bool
  | [] => true
  | x :: rest => (!rest.contains x) && distinctKeys rest

/-- `fs.cp(src, dest, { recursive: true, force: true })` semantics, writing
the second tree over the first: files overwrite, directories merge child by
child, children of the old tree that the new tree does not mention
survive. -/
def mergeTree : FsTree → FsTree → FsTree
  | _, .file c => .file c
  | .file _, .dir es => .dir es
  | .dir oldEs, .dir [] => .dir oldEs
  | .dir oldEs, .dir ((n, t) :: rest) =>
      mergeTree
        (.dir (match lookupEntry oldEs n with
               | some oldT => replaceEntry oldEs n (mergeTree oldT t)
               | none => oldEs ++ [(n, t)]))
        (.dir rest)
termination_by _ new => sizeOf new
decreasing_by all_goals (simp_wf; try omega)

/-- Copy the tree `t` to the child named `n`, with `fs.cp` force/merge
semantics (`FileSyncer.copyRecursive` landing at one destination entry). -/
def cpForce (es : List (String × FsTree)) (n : String) (t : FsTree) :
    List (String × FsTree) :=
  match lookupEntry es n with
  | some oldT => replaceEntry es n (mergeTree oldT t)
  | none => es ++ [(n, t)]

/-- Follow a path of names down a tree. -/
def FsTree.lookupPath : FsTree → List String → Option FsTree
  | t, [] => some t
  | .file _, _ :: _ => none
  | .dir es, n :: rest =>
      match lookupEntry es n with
      | some t => t.lookupPath rest
      | none => none

/-- Does the path exist below an optional root (absent root: no)? -/
def pathExistsO : Option FsTree → List String → Bool
  | none, _ => false
  | some t, p => (t.lookupPath p).isSome

/-- Well-formedness of a tree as a real filesystem state, checked down to
the given depth: every directory has distinct child names (the invariant
`fs.readdir` guarantees), recursively.  At depth `0` the check reports
failure, so `wfFuel n t = true` certifies well-formedness of all of `t`
whenever `n` is at least the height of `t`; the fuel makes the function
structurally recursive and hence evaluable inside the kernel. -/
def wfFuel : Nat → FsTree → Bool
  | 0, _ => false
  | _ + 1, .file _ => true
  | n + 1, .dir es =>
      distinctKeys (es.map Prod.fst) && es.all (fun p => wfFuel n p.2)

/-! ## Logging and fault model -/

/-- Severity of a `vscode.LogOutputChannel` message. -/
inductive LogLevel where
  | debug | info | warn | error
deriving DecidableEq, Repr

/-- One log line. Path and error interpolations of the original messages
are elided where the corresponding value is not part of the model. -/
structure LogEntry where
  level : LogLevel
  msg : String
deriving DecidableEq, Repr

/-- Error codes of the filesystem faults the code distinguishes
(`(error as any).code !== 'ENOENT'`). -/
inductive FsCode where
  | ENOENT | EPERM | EACCES | EBUSY
deriving DecidableEq, Repr

/-- A filesystem error as surfaced by a failing `fs` call, tagged with the
offending path. -/
structure FsError where
  code : FsCode
  path : String
deriving DecidableEq, Repr

/-- Injected outcomes for the destination-side `fs.rm` and `fs.mkdir`
calls of `FileSyncer.syncFiles` (`none` = the call succeeds).  The copy
phase operations are modelled as succeeding. -/
structure FsFaults where
  rmError : Option FsCode
  mkdirError : Option FsCode

/-- The fault assignment under which every filesystem call succeeds. -/
def noFaults : FsFaults := ⟨none, none⟩

/-! ## FileSyncer (src/fileSyncer.ts) -/

/-- `FileSyncer.hasExistingContent`: `fs.stat(repoPath)` succeeds and
reports a directory (a missing path makes `stat` throw, caught as
`false`). -/
def hasExistingContent : Option FsTree → Bool
  | some (FsTree.dir _) => true
  | _ => false

/-- `FileSyncer.removeDestination`: remove the destination tree wholesale
with `fs.rm(rulesPath, { recursive: true, force: true })`.  A failure is
caught: it is *not* rethrown, and is logged as a warning unless its code
is `ENOENT`.  On failure the previous destination tree remains.  Returns
the destination state after the call, and the log lines. -/
def removeDestination (f : FsFaults) (dest : Option FsTree) :
    Option FsTree × List LogEntry :=
  match f.rmError with
  | none =>
      (none,
       [⟨.debug, "Removing destination directory entirely"⟩,
        ⟨.debug, "Destination directory removed"⟩])
  | some c =>
      (dest,
       ⟨.debug, "Removing destination directory entirely"⟩ ::
         (if c = FsCode.ENOENT then []
          else [⟨.warn, "Failed to remove destination directory"⟩]))

/-- The inner loop of `FileSyncer.copyRulesFromRepo` for one team-prefixed
top-level directory: copy `srcTeamPath` to `teamDestRoot/teamName` when
`directoryExists(srcTeamPath)`, else log that the team folder is missing.
`destEs` are the top-level destination entries; `rootName` is the name of
the team-prefixed directory (already created in `destEs`); `srcEs` are the
children of the source team directory. -/
def copyTeamLoop (destEs : List (String × FsTree)) (rootName : String)
    (srcEs : List (String × FsTree)) :
    List String → List (String × FsTree) × List LogEntry
  | [] => (destEs, [])
  | tn :: rest =>
    match lookupEntry srcEs tn with
    | some t =>
        if t.isDir then
          let destEs1 :=
            match lookupEntry destEs rootName with
            | some (FsTree.dir sub) =>
                replaceEntry destEs rootName (FsTree.dir (cpForce sub tn t))
            | _ => destEs
          let out := copyTeamLoop destEs1 rootName srcEs rest
          (out.1, LogEntry.mk .info s!"Copied team rules for: {tn} from {rootName}/" :: out.2)
        else
          let out := copyTeamLoop destEs rootName srcEs rest
          (out.1, LogEntry.mk .info s!"Team folder not found under {rootName}/: {tn} (skipping)" :: out.2)
    | none =>
        let out := copyTeamLoop destEs rootName srcEs rest
        (out.1, LogEntry.mk .info s!"Team folder not found under {rootName}/: {tn} (skipping)" :: out.2)

/-- `FileSyncer.copyRulesFromRepo`: iterate the top-level entries of the
repository snapshot.  Hidden entries (name starting with `.`) and
non-directories are skipped.  A directory whose name starts with `team`
gets its destination root created and only the configured team subfolders
copied; any other directory is copied recursively in full.  `destEs` are
the current top-level destination entries. -/
def copyRulesFromRepo (repoEntries : List (String × FsTree)) (teamNames : List String)
    (destEs : List (String × FsTree)) : List (String × FsTree) × List LogEntry :=
  match repoEntries with
  | [] => (destEs, [])
  | (name, t) :: rest =>
    if strStartsWith name "." || !t.isDir then
      copyRulesFromRepo rest teamNames destEs
    else if strStartsWith name "team" then
      let step := copyTeamLoop (mkdirp destEs name) name t.entries teamNames
      let restOut := copyRulesFromRepo rest teamNames step.1
      (restOut.1, step.2 ++ restOut.2)
    else
      let restOut := copyRulesFromRepo rest teamNames (cpForce destEs name t)
      (restOut.1, LogEntry.mk .info s!"Copied folder: {name}" :: restOut.2)

/-- Result of one `FileSyncer.syncFiles` run: the promise outcome, the
destination tree afterwards, and the log lines. -/
structure SyncOutcome where
  result : Except FsError Unit
  dest : Option FsTree
  logs : List LogEntry

/-- `FileSyncer.syncFiles`: remove the destination entirely (failures
swallowed by `removeDestination`), recreate it with
`fs.mkdir(rulesFolderPath, { recursive: true })` (an injected failure
there propagates, as the code does not catch it), then run
`copyRulesFromRepo`.  `repoEntries` are the top-level entries of the
repository snapshot, `pth` is `config.rulesFolderPath`. -/
def syncFiles (f : FsFaults) (repoEntries : List (String × FsTree))
    (teamNames : List String) (pth : String) (dest : Option FsTree) : SyncOutcome :=
  let startLog := LogEntry.mk .info "Starting file sync"
  let rm := removeDestination f dest
  match f.mkdirError with
  | some c => ⟨.error ⟨c, pth⟩, rm.1, startLog :: rm.2⟩
  | none =>
      let destEs0 :=
        match rm.1 with
        | none => ([] : List (String × FsTree))
        | some (FsTree.dir es) => es
        | some (FsTree.file _) => []
      let copied := copyRulesFromRepo repoEntries teamNames destEs0
      ⟨.ok (), some (FsTree.dir copied.1),
       (startLog :: rm.2) ++ copied.2 ++ [⟨.info, "File sync completed"⟩]⟩

/-! ## Spec-side description of the mirrored destination

These definitions follow the wording of the specification ("for each
identifier in `selectedTeams`, check whether a subdirectory of that exact
name exists … copy it in full"; set semantics for the team list) and are
compared with the code-derived `copyRulesFromRepo` in the claim about the
mirror contents. -/

/-- Keep only the first occurrence of every string (the specification
gives the selected-team list set semantics; this fixes the enumeration
order of the set as first occurrences). -/
def firstOccurrences : List String → List String
  | [] => []
  | x :: rest => x :: (firstOccurrences rest).filter (fun y => y != x)

/-- Spec wording: the subtree a selected team identifier contributes — the
full source subtree when a subdirectory of that exact name exists, nothing
otherwise. -/
def selTeam (srcEs : List (String × FsTree)) (tn : String) : Option (String × FsTree) :=
  match lookupEntry srcEs tn with
  | some t => if t.isDir then some (tn, t) else none
  | none => none

/-- Spec wording: the destination team directory contains precisely those
selected-team subtrees that exist (as directories) under the source team
directory, each in full. -/
def specSelectedTeams (srcEs : List (String × FsTree)) (teams : List String) :
    List (String × FsTree) :=
  (firstOccurrences teams).filterMap (selTeam srcEs)

/-- Spec wording: the top-level destination entry for the name `n` after a
mirror of `repoEntries` with the given selection.  Hidden names and
non-directories yield nothing; a `team`-prefixed directory yields a
directory with exactly the selected existing team subtrees; any other
directory is copied in full. -/
def specTopEntry (repoEntries : List (String × FsTree)) (teams : List String)
    (n : String) : Option FsTree :=
  match lookupEntry repoEntries n with
  | some (FsTree.dir es) =>
      if strStartsWith n "." then none
      else if strStartsWith n "team" then some (FsTree.dir (specSelectedTeams es teams))
      else some (FsTree.dir es)
  | some (FsTree.file _) => none
  | none => none

/-- Proof-side helper: the cumulative effect of the team copy loop of
`copyTeamLoop` on the contents of the destination team directory alone. -/
def teamAccFold (sub : List (String × FsTree)) (srcEs : List (String × FsTree)) :
    List String → List (String × FsTree)
  | [] => sub
  | tn :: rest =>
      match lookupEntry srcEs tn with
      | some t =>
          if t.isDir then teamAccFold (cpForce sub tn t) srcEs rest
          else teamAccFold sub srcEs rest
      | none => teamAccFold sub srcEs rest

/-- The top-level entries of the destination after a sync (empty if the
destination is absent or a file). -/
def destEntriesOf (o : SyncOutcome) : List (String × FsTree) :=
  o.dest.elim [] FsTree.entries

/-! ## RulesManager (src/rulesManager.ts) -/

/-- A user-facing notification.  `blockingErrorModal` is
`vscode.window.showErrorMessage(msg, { modal: true }, ...)`;
`warningMessage` is the non-blocking `vscode.window.showWarningMessage`;
`infoMessage` is `vscode.window.showInformationMessage`. -/
inductive Notice where
  | blockingErrorModal (msg : String)
  | warningMessage (msg : String)
  | infoMessage (msg : String)
deriving DecidableEq, Repr

/-- Whether a notification blocks the user (only the modal does). -/
def Notice.isBlocking : Notice → Bool
  | .blockingErrorModal _ => true
  | _ => false

/-- Does the second list contain the first as a contiguous sublist? -/
def hasSublist (pat : List Char) : List Char → Bool
  | [] => pat.isEmpty
  | s@(_ :: rest) => matchesHead pat s || hasSublist pat rest

/-- `String.prototype.includes` of JavaScript, on the character lists. -/
def includesSubstr (s pat : String) : Bool :=
  hasSublist pat.toList s.toList

/-- The error-message fragments `RulesManager.performInitialSetup` matches
to recognise a repository access failure. -/
def repoAccessIndicators : List String :=
  ["Repository not found", "Could not read from remote repository",
   "Authentication failed", "Git clone failed"]

/-- The `errorMessage.includes(...)` dispatch of
`RulesManager.performInitialSetup`. -/
def isRepoAccessError (msg : String) : Bool :=
  repoAccessIndicators.any fun pat => includesSubstr msg pat

/-- The notification produced for a failure of the initial sync inside
`RulesManager.performInitialSetup`: repository-access errors are routed to
`offerReconfiguration` (a non-modal `showWarningMessage` with the choices
Open Settings / Work with Local Copy); every other error goes to
`handleSyncError(error, true)`, whose first-time branch shows the blocking
modal with the choices Retry / Work with local copy. -/
def performInitialSetupFailureNotice (msg : String) : Notice :=
  if isRepoAccessError msg then
    .warningMessage ("Failed to access AI rules repository: " ++ msg)
  else
    .blockingErrorModal ("Failed to sync AI rules: " ++ msg)

/-- The non-first-time branch of `RulesManager.handleSyncError`
(`isFirstTime = false`): a non-blocking warning naming the failure. -/
def handleSyncErrorSteady (msg : String) : Notice :=
  .warningMessage ("Failed to sync rules: " ++ msg)

/-- Result of the Work-with-local-copy recovery path. -/
structure RecoveryOutcome where
  dest : Option FsTree
  notices : List Notice
  logs : List LogEntry

/-- The `Work with local copy` branch of `RulesManager.handleSyncError`:
if `hasExistingContent(repoPath)` then invoke `FileSyncer.syncFiles`
directly against the cached repository snapshot (no git access), else
show the non-blocking `No rules available` warning.  A failure of the
fallback sync is caught and reported with the same warning. -/
def workWithLocalCopy (f : FsFaults) (cache : Option FsTree)
    (teams : List String) (pth : String) (dest : Option FsTree) : RecoveryOutcome :=
  if hasExistingContent cache then
    let so := syncFiles f (cache.elim [] FsTree.entries) teams pth dest
    match so.result with
    | .ok _ => ⟨so.dest, [], so.logs ++ [⟨.info, "Using existing cached rules"⟩]⟩
    | .error _ =>
        ⟨so.dest, [.warningMessage "No rules available; working without rules"],
         so.logs ++ [⟨.error, "Fallback to cached rules failed"⟩]⟩
  else
    ⟨dest, [.warningMessage "No rules available; working without rules"], []⟩

/-- The choice offered by the blocking first-failure modal (`dismiss`
models closing the modal without choosing). -/
inductive FirstFailAction where
  | retry | workLocal | dismiss
deriving DecidableEq, Repr

/-- The notifications produced by a session that starts with
`RulesManager.performInitialSync`.  `attempts` scripts the outcome of each
successive `syncRules` call (`none` = success, `some msg` = the attempt
throws with that message); `acts` scripts the user's choice in each
blocking modal; `hasCache` scripts `hasExistingContent` for the
Work-with-local-copy branch.  On failure `performInitialSync` always calls
`handleSyncError(error, true)`, and the `Retry` choice re-enters
`performInitialSync` itself. -/
def initialSyncSession (hasCache : Bool) :
    List (Option String) → List FirstFailAction → List Notice
  | [], _ => []
  | none :: _, _ => []
  | some msg :: rest, acts =>
      Notice.blockingErrorModal ("Failed to sync AI rules: " ++ msg) ::
        match acts with
        | FirstFailAction.retry :: acts2 => initialSyncSession hasCache rest acts2
        | FirstFailAction.workLocal :: _ =>
            if hasCache then []
            else [.warningMessage "No rules available; working without rules"]
        | FirstFailAction.dismiss :: _ => []
        | [] => []

/-! ## GitManager (src/gitManager.ts) -/

/-- `GitManager.repositoryExists`: `fs.stat(repoPath/.git)` succeeds and
reports a directory. -/
def repositoryExists (cache : Option FsTree) : Bool :=
  match cache with
  | some (FsTree.dir es) =>
      match lookupEntry es ".git" with
      | some t => t.isDir
      | none => false
  | _ => false

/-- `GitManager.fetchRepository`: `fetchError` injects a failure of the
fetch/compare/reset block (`none` = it succeeds).  The catch block logs
the failure and, when a local copy still exists, swallows the error and
keeps the cached snapshot; otherwise it rethrows as `Git fetch failed`. -/
def fetchRepository (fetchError : Option String) (cache : Option FsTree) :
    Except String Unit × List LogEntry :=
  match fetchError with
  | none => (.ok (), [])
  | some e =>
      if repositoryExists cache then
        (.ok (),
         [⟨.error, "Failed to fetch repository updates"⟩,
          ⟨.warn, "Using existing cached copy due to fetch failure"⟩])
      else
        (.error ("Git fetch failed: " ++ e),
         [⟨.error, "Failed to fetch repository updates"⟩])

/-- `GitManager.ensureRepository`: acquire the lock (`lockError` injects a
`properLockfile.lock` failure), then clone when no repository exists yet
(`cloneError` injects a `git clone` failure) or fetch updates when it
does.  On success the existing cache directory is the returned snapshot;
branch discovery is not modelled. -/
def ensureRepository (lockError cloneError fetchError : Option String)
    (cache : Option FsTree) : Except String Unit × List LogEntry :=
  match lockError with
  | some e => (.error ("Failed to acquire lock: " ++ e), [])
  | none =>
      if repositoryExists cache then
        let fr := fetchRepository fetchError cache
        (fr.1, ⟨.info, "Repository exists, fetching updates"⟩ :: fr.2)
      else
        match cloneError with
        | none => (.ok (), [⟨.info, "Cloning repository for the first time"⟩])
        | some e =>
            (.error ("Git clone failed: " ++ e),
             [⟨.info, "Cloning repository for the first time"⟩,
              ⟨.error, "Failed to clone repository"⟩])

/-- Result of one `RulesManager.syncRules` call. -/
structure SyncRunOutcome where
  result : Except String Unit
  dest : Option FsTree
  logs : List LogEntry

/-- `RulesManager.syncRules` (configured, valid-configuration path): run
`GitManager.ensureRepository`; on failure rethrow without touching the
destination; on success run `FileSyncer.syncFiles` with the cached
snapshot as source, converting a filesystem error of the mirror into the
thrown error.  A successful clone is modelled as producing the `cache`
tree that the mirror then reads. -/
def syncRules (lockError cloneError fetchError : Option String) (f : FsFaults)
    (cache : Option FsTree) (teams : List String) (pth : String)
    (dest : Option FsTree) : SyncRunOutcome :=
  let er := ensureRepository lockError cloneError fetchError cache
  match er.1 with
  | .error e => ⟨.error e, dest, er.2 ++ [⟨.error, "Sync failed"⟩]⟩
  | .ok _ =>
      let so := syncFiles f (cache.elim [] FsTree.entries) teams pth dest
      match so.result with
      | .ok _ =>
          ⟨.ok (), so.dest,
           er.2 ++ so.logs ++ [⟨.info, "Rules sync completed successfully"⟩]⟩
      | .error fe =>
          ⟨.error ("Filesystem error at " ++ fe.path), so.dest,
           er.2 ++ so.logs ++ [⟨.error, "Sync failed"⟩]⟩

/-! ## Concrete sample states (used in witnesses and counterexamples) -/

/-- The sample repository snapshot of the FileSyncer unit test: a fully
mirrored `general` folder, team-prefixed `team` and `teams` folders with
two teams each, a hidden `.git` directory and a top-level file. -/
def sampleRepo : List (String × FsTree) :=
  [("general", .dir [("tone.mdc", .file "tone")]),
   ("team", .dir [("cloud-infra", .dir [("general.mdc", .file "cloud")]),
                  ("blue-team", .dir [("general.mdc", .file "blue")])]),
   ("teams", .dir [("cloud-infra", .dir [("extra.mdc", .file "cloud-extra")]),
                   ("data-science", .dir [("general.mdc", .file "ds")])]),
   (".git", .dir [("HEAD", .file "ref")]),
   ("README.md", .file "readme")]

/-- A destination left over from an earlier sync, holding a stale file
`team/blue-team/old.mdc` that the current source/selection does not
produce. -/
def staleDest : Option FsTree :=
  some (.dir [("team", .dir [("blue-team", .dir [("old.mdc", .file "stale")])])])

/-- A destination holding a file `notes/keep.txt` unrelated to the current
source. -/
def notesDest : Option FsTree :=
  some (.dir [("notes", .dir [("keep.txt", .file "k")])])

/-- The mirror of `sampleRepo` with selection `["cloud-infra"]`. -/
def sampleMirror : Option FsTree :=
  some (.dir
    [("general", .dir [("tone.mdc", .file "tone")]),
     ("team", .dir [("cloud-infra", .dir [("general.mdc", .file "cloud")])]),
     ("teams", .dir [("cloud-infra", .dir [("extra.mdc", .file "cloud-extra")])])])

/-- A local cache directory as left by a successful clone of
`sampleRepo` (it contains `.git`, so `repositoryExists` holds). -/
def sampleCache : Option FsTree := some (.dir sampleRepo)

/-! ## Basic lemmas about the filesystem model -/

lemma lookupEntry_nil (m : String) : lookupEntry [] m = none := rfl

lemma lookupEntry_cons (n : String) (t : FsTree) (rest : List (String × FsTree))
    (m : String) :
    lookupEntry ((n, t) :: rest) m = if n = m then some t else lookupEntry rest m := rfl

lemma lookupEntry_append_of_none (es es2 : List (String × FsTree)) (m : String)
    (h : lookupEntry es m = none) :
    lookupEntry (es ++ es2) m = lookupEntry es2 m := by
  induction es with
  | nil => simp
  | cons e rest ih =>
      obtain ⟨n, t⟩ := e
      by_cases hn : n = m
      · simp [lookupEntry_cons, hn] at h
      · simp [lookupEntry_cons, hn] at h ⊢
        exact ih h

lemma lookupEntry_append_of_some (es es2 : List (String × FsTree)) (m : String)
    (t : FsTree) (h : lookupEntry es m = some t) :
    lookupEntry (es ++ es2) m = some t := by
  induction es with
  | nil => simp [lookupEntry_nil] at h
  | cons e rest ih =>
      obtain ⟨n, u⟩ := e
      by_cases hn : n = m
      · simp [lookupEntry_cons, hn] at h ⊢
        exact h
      · simp [lookupEntry_cons, hn] at h ⊢
        exact ih h

lemma lookupEntry_singleton (n m : String) (t : FsTree) :
    lookupEntry [(n, t)] m = if n = m then some t else none := rfl

lemma lookupEntry_replaceEntry_ne (es : List (String × FsTree)) (n m : String)
    (u : FsTree) (h : m ≠ n) :
    lookupEntry (replaceEntry es n u) m = lookupEntry es m := by
  induction es with
  | nil => rfl
  | cons e rest ih =>
      obtain ⟨k, t⟩ := e
      by_cases hk : k = n
      · have hkm : ¬ n = m := fun he => h he.symm
        simp [replaceEntry, hk, lookupEntry_cons, hkm]
      · simp [replaceEntry, hk, lookupEntry_cons, ih]

lemma lookupEntry_replaceEntry_self (es : List (String × FsTree)) (n : String)
    (t u : FsTree) (h : lookupEntry es n = some t) :
    lookupEntry (replaceEntry es n u) n = some u := by
  induction es with
  | nil => simp [lookupEntry_nil] at h
  | cons e rest ih =>
      obtain ⟨k, v⟩ := e
      by_cases hk : k = n
      · simp [replaceEntry, hk, lookupEntry_cons]
      · simp [replaceEntry, hk, lookupEntry_cons] at h ⊢
        exact ih h

lemma replaceEntry_lookup_self (es : List (String × FsTree)) (n : String)
    (t : FsTree) (h : lookupEntry es n = some t) :
    replaceEntry es n t = es := by
  induction es with
  | nil => rfl
  | cons e rest ih =>
      obtain ⟨k, v⟩ := e
      by_cases hk : k = n
      · subst hk
        simp [lookupEntry_cons] at h
        simp [replaceEntry, h]
      · simp [lookupEntry_cons, hk] at h
        simp [replaceEntry, hk, ih h]

lemma lookupEntry_mem (es : List (String × FsTree)) (m : String) (t : FsTree)
    (h : lookupEntry es m = some t) : (m, t) ∈ es := by
  induction es with
  | nil => simp [lookupEntry_nil] at h
  | cons e rest ih =>
      obtain ⟨k, v⟩ := e
      by_cases hk : k = m
      · subst hk
        simp [lookupEntry_cons] at h
        simp [h]
      · simp [lookupEntry_cons, hk] at h
        simp [ih h]

lemma lookupEntry_eq_none_of_not_mem (es : List (String × FsTree)) (m : String)
    (h : m ∉ es.map Prod.fst) : lookupEntry es m = none := by
  induction es with
  | nil => rfl
  | cons e rest ih =>
      obtain ⟨k, v⟩ := e
      have hk : ¬ k = m := by
        intro he
        exact h (by simp [he])
      have h2 : m ∉ rest.map Prod.fst := by
        intro hm
        exact h (by simp [hm])
      simp [lookupEntry_cons, hk, ih h2]

lemma lookupEntry_isSome_mem (es : List (String × FsTree)) (m : String)
    (h : (lookupEntry es m).isSome = true) : m ∈ es.map Prod.fst := by
  by_contra hc
  rw [lookupEntry_eq_none_of_not_mem es m hc] at h
  simp at h

/-! ## Well-formedness lemmas -/

lemma distinctKeys_cons (x : String) (rest : List String) :
    distinctKeys (x :: rest) = (!rest.contains x && distinctKeys rest) := rfl

lemma distinctKeys_lookup (es : List (String × FsTree)) (m : String) (t : FsTree)
    (hdk : distinctKeys (es.map Prod.fst) = true) (h : (m, t) ∈ es) :
    lookupEntry es m = some t := by
  induction es with
  | nil => simp at h
  | cons e rest ih =>
      obtain ⟨k, v⟩ := e
      rw [List.map_cons, distinctKeys_cons] at hdk
      simp only [Bool.and_eq_true] at hdk
      rcases List.mem_cons.mp h with h1 | h2
      · cases h1
        simp [lookupEntry_cons]
      · have hk2 : k ∉ rest.map Prod.fst := by simpa using hdk.1
        have hk : k ≠ m := by
          intro hkm
          subst hkm
          exact hk2 (List.mem_map.mpr ⟨(k, t), h2, rfl⟩)
        simp [lookupEntry_cons, hk, ih hdk.2 h2]

lemma wfFuel_dir_distinct (n : Nat) (es : List (String × FsTree))
    (h : wfFuel (n + 1) (.dir es) = true) :
    distinctKeys (es.map Prod.fst) = true := by
  rw [wfFuel] at h
  exact (Bool.and_eq_true .. |>.mp h).1

lemma wfFuel_dir_child (n : Nat) (es : List (String × FsTree)) (m : String)
    (t : FsTree) (h : wfFuel (n + 1) (.dir es) = true) (hm : (m, t) ∈ es) :
    wfFuel n t = true := by
  rw [wfFuel] at h
  have h2 := (Bool.and_eq_true .. |>.mp h).2
  rw [List.all_eq_true] at h2
  exact h2 (m, t) hm

/-! ## Merging a well-formed tree over itself changes nothing -/

lemma mergeTree_self_aux (es : List (String × FsTree)) :
    ∀ es2 : List (String × FsTree),
      (∀ p ∈ es2, lookupEntry es p.1 = some p.2 ∧ mergeTree p.2 p.2 = p.2) →
      mergeTree (.dir es) (.dir es2) = .dir es := by
  intro es2
  induction es2 with
  | nil => intro _; rw [mergeTree]
  | cons p rest ih =>
      obtain ⟨n, t⟩ := p
      intro h
      have h1 := h (n, t) (by simp)
      rw [mergeTree]
      simp only [h1.1, h1.2]
      rw [replaceEntry_lookup_self es n t h1.1]
      exact ih fun p hp => h p (by simp [hp])

theorem mergeTree_self : ∀ (n : Nat) (t : FsTree), wfFuel n t = true → mergeTree t t = t
  | 0, t, h => by rw [wfFuel] at h; exact absurd h (by simp)
  | _ + 1, .file _, _ => by rw [mergeTree]
  | n + 1, .dir es, h => by
      apply mergeTree_self_aux
      intro p hp
      obtain ⟨m, u⟩ := p
      exact ⟨distinctKeys_lookup es m u (wfFuel_dir_distinct n es h) hp,
             mergeTree_self n u (wfFuel_dir_child n es m u h hp)⟩

/-! ## cpForce and mkdirp lemmas -/

lemma cpForce_of_none (es : List (String × FsTree)) (n : String) (t : FsTree)
    (h : lookupEntry es n = none) : cpForce es n t = es ++ [(n, t)] := by
  simp [cpForce, h]

lemma lookupEntry_cpForce_self_of_none (es : List (String × FsTree)) (n : String)
    (t : FsTree) (h : lookupEntry es n = none) :
    lookupEntry (cpForce es n t) n = some t := by
  rw [cpForce_of_none es n t h, lookupEntry_append_of_none es _ n h,
     lookupEntry_singleton]
  simp

lemma lookupEntry_cpForce_ne (es : List (String × FsTree)) (n m : String)
    (t : FsTree) (h : m ≠ n) :
    lookupEntry (cpForce es n t) m = lookupEntry es m := by
  unfold cpForce
  cases hl : lookupEntry es n with
  | some oldT => exact lookupEntry_replaceEntry_ne es n m _ h
  | none =>
      cases hm : lookupEntry es m with
      | some u => simp [lookupEntry_append_of_some es _ m u hm]
      | none =>
          have hnm : ¬ n = m := fun he => h he.symm
          rw [lookupEntry_append_of_none es _ m hm, lookupEntry_singleton]
          simp [hnm, hm]

lemma mkdirp_of_none (es : List (String × FsTree)) (n : String)
    (h : lookupEntry es n = none) : mkdirp es n = es ++ [(n, FsTree.dir [])] := by
  simp [mkdirp, h]

lemma lookupEntry_mkdirp_self_of_none (es : List (String × FsTree)) (n : String)
    (h : lookupEntry es n = none) :
    lookupEntry (mkdirp es n) n = some (FsTree.dir []) := by
  rw [mkdirp_of_none es n h, lookupEntry_append_of_none es _ n h, lookupEntry_singleton]
  simp

lemma lookupEntry_mkdirp_ne (es : List (String × FsTree)) (n m : String) (h : m ≠ n) :
    lookupEntry (mkdirp es n) m = lookupEntry es m := by
  unfold mkdirp
  cases hl : lookupEntry es n with
  | some u => rfl
  | none =>
      cases hm : lookupEntry es m with
      | some u => simp [lookupEntry_append_of_some es _ m u hm]
      | none =>
          have hnm : ¬ n = m := fun he => h he.symm
          rw [lookupEntry_append_of_none es _ m hm, lookupEntry_singleton]
          simp [hnm, hm]

/-! ## The team copy loop -/

lemma copyTeamLoop_lookup (rootName : String) (srcEs : List (String × FsTree)) :
    ∀ (teams : List String) (destEs sub : List (String × FsTree)),
      lookupEntry destEs rootName = some (.dir sub) →
      lookupEntry (copyTeamLoop destEs rootName srcEs teams).1 rootName
          = some (.dir (teamAccFold sub srcEs teams)) ∧
      ∀ m, m ≠ rootName →
        lookupEntry (copyTeamLoop destEs rootName srcEs teams).1 m
          = lookupEntry destEs m := by
  intro teams
  induction teams with
  | nil =>
      intro destEs sub h
      exact ⟨by simpa [copyTeamLoop, teamAccFold] using h, fun m _ => rfl⟩
  | cons tn rest ih =>
      intro destEs sub h
      cases hl : lookupEntry srcEs tn with
      | none =>
          simp only [copyTeamLoop, hl, teamAccFold]
          exact ih destEs sub h
      | some t =>
          cases ht : t.isDir with
          | false =>
              simp only [copyTeamLoop, hl, ht, teamAccFold, Bool.false_eq_true,
                if_false]
              exact ih destEs sub h
          | true =>
              simp only [copyTeamLoop, hl, ht, teamAccFold, if_true, h]
              have h1 : lookupEntry
                  (replaceEntry destEs rootName (.dir (cpForce sub tn t))) rootName
                  = some (.dir (cpForce sub tn t)) :=
                lookupEntry_replaceEntry_self destEs rootName _ _ h
              have hrec := ih (replaceEntry destEs rootName (.dir (cpForce sub tn t)))
                (cpForce sub tn t) h1
              exact ⟨hrec.1, fun m hm =>
                (hrec.2 m hm).trans (lookupEntry_replaceEntry_ne destEs rootName m _ hm)⟩

lemma filterMap_filter_and_bne {β : Type} (sel : String → Option β) (tn : String)
    (hsel : sel tn = none) :
    ∀ (l : List String) (p : String → Bool),
      ((l.filter fun y => p y && (y != tn)).filterMap sel)
        = (l.filter p).filterMap sel := by
  intro l
  induction l with
  | nil => intro p; rfl
  | cons x rest ih =>
      intro p
      by_cases hx : x = tn
      · subst hx
        by_cases hp : p x = true <;>
          simp [List.filter_cons, hp, hsel, ih p]
      · have hbne : (x != tn) = true := by simp [hx]
        by_cases hp : p x = true <;>
          simp [List.filter_cons, List.filterMap_cons, hp, hbne, ih p]

lemma filter_and_bne_of_false (tn : String) (p : String → Bool)
    (hp : p tn = false) :
    ∀ l : List String, (l.filter fun y => p y && (y != tn)) = l.filter p := by
  intro l
  induction l with
  | nil => rfl
  | cons x rest ih =>
      by_cases hx : x = tn
      · subst hx
        simp [List.filter_cons, hp, ih]
      · have hbne : (x != tn) = true := by simp [hx]
        by_cases hq : p x = true <;> simp [List.filter_cons, hq, hbne, ih]

lemma isNone_lookupEntry_append_singleton (acc : List (String × FsTree))
    (tn y : String) (t : FsTree) :
    (lookupEntry (acc ++ [(tn, t)]) y).isNone
      = ((lookupEntry acc y).isNone && (y != tn)) := by
  cases hy : lookupEntry acc y with
  | some u => simp [lookupEntry_append_of_some acc _ y u hy]
  | none =>
      rw [lookupEntry_append_of_none acc _ y hy, lookupEntry_singleton]
      by_cases he : tn = y
      · simp [he]
      · have : ¬ y = tn := fun hh => he hh.symm
        simp [he, this]

lemma teamAccFold_spec (srcEs : List (String × FsTree))
    (hmself : ∀ tn u, lookupEntry srcEs tn = some u → mergeTree u u = u) :
    ∀ (teams : List String) (acc : List (String × FsTree)),
      (∀ tn u, lookupEntry acc tn = some u →
        lookupEntry srcEs tn = some u ∧ u.isDir = true) →
      teamAccFold acc srcEs teams =
        acc ++ ((firstOccurrences teams).filter
                  fun tn => (lookupEntry acc tn).isNone).filterMap (selTeam srcEs) := by
  intro teams
  induction teams with
  | nil => intro acc _; simp [teamAccFold, firstOccurrences]
  | cons tn rest ih =>
      intro acc hacc
      have hfo : firstOccurrences (tn :: rest)
          = tn :: (firstOccurrences rest).filter (fun y => y != tn) := rfl
      cases hl : lookupEntry srcEs tn with
      | none =>
          have hsel : selTeam srcEs tn = none := by simp [selTeam, hl]
          rw [teamAccFold, hl]
          rw [ih acc hacc, hfo]
          cases hcn : (lookupEntry acc tn).isNone with
          | true =>
              simp only [List.filter_cons, hcn, if_true, List.filterMap_cons, hsel,
                List.filter_filter]
              rw [filterMap_filter_and_bne (selTeam srcEs) tn hsel]
          | false =>
              simp only [List.filter_cons, hcn, Bool.false_eq_true, if_false,
                List.filter_filter]
              rw [filterMap_filter_and_bne (selTeam srcEs) tn hsel]
      | some t =>
          cases ht : t.isDir with
          | false =>
              have hsel : selTeam srcEs tn = none := by simp [selTeam, hl, ht]
              rw [teamAccFold, hl]
              simp only [ht, Bool.false_eq_true, if_false]
              rw [ih acc hacc, hfo]
              cases hcn : (lookupEntry acc tn).isNone with
              | true =>
                  simp only [List.filter_cons, hcn, if_true, List.filterMap_cons, hsel,
                    List.filter_filter]
                  rw [filterMap_filter_and_bne (selTeam srcEs) tn hsel]
              | false =>
                  simp only [List.filter_cons, hcn, Bool.false_eq_true, if_false,
                    List.filter_filter]
                  rw [filterMap_filter_and_bne (selTeam srcEs) tn hsel]
          | true =>
              have hsel : selTeam srcEs tn = some (tn, t) := by simp [selTeam, hl, ht]
              rw [teamAccFold, hl]
              simp only [ht, if_true]
              cases hcn : lookupEntry acc tn with
              | some u =>
                  have hu := hacc tn u hcn
                  have hut : u = t := by
                    have := hu.1.symm.trans hl
                    exact Option.some.inj this
                  subst hut
                  have hmerge : mergeTree u u = u := hmself tn u hl
                  have hcp : cpForce acc tn u = acc := by
                    simp only [cpForce, hcn, hmerge]
                    exact replaceEntry_lookup_self acc tn u hcn
                  rw [hcp, ih acc hacc, hfo]
                  have hcnf : (lookupEntry acc tn).isNone = false := by simp [hcn]
                  simp only [List.filter_cons, hcnf, Bool.false_eq_true, if_false,
                    List.filter_filter]
                  rw [filter_and_bne_of_false tn _ hcnf]
              | none =>
                  have hcp : cpForce acc tn t = acc ++ [(tn, t)] :=
                    cpForce_of_none acc tn t hcn
                  rw [hcp]
                  have hacc2 : ∀ m u, lookupEntry (acc ++ [(tn, t)]) m = some u →
                      lookupEntry srcEs m = some u ∧ u.isDir = true := by
                    intro m u hm
                    cases hmm : lookupEntry acc m with
                    | some v =>
                        rw [lookupEntry_append_of_some acc _ m v hmm] at hm
                        obtain rfl : v = u := Option.some.inj hm
                        exact hacc m _ hmm
                    | none =>
                        rw [lookupEntry_append_of_none acc _ m hmm,
                          lookupEntry_singleton] at hm
                        by_cases he : tn = m
                        · subst he
                          simp at hm
                          subst hm
                          exact ⟨hl, ht⟩
                        · simp [he] at hm
                  rw [ih (acc ++ [(tn, t)]) hacc2, hfo]
                  have hcnt : (lookupEntry acc tn).isNone = true := by simp [hcn]
                  simp only [List.filter_cons, hcnt, if_true, List.filterMap_cons, hsel,
                    List.filter_filter, List.append_assoc, List.singleton_append]
                  have hfe : ((firstOccurrences rest).filter
                        fun y => (lookupEntry (acc ++ [(tn, t)]) y).isNone)
                      = (firstOccurrences rest).filter
                        fun y => (lookupEntry acc y).isNone && (y != tn) := by
                    apply List.filter_congr
                    intro y _
                    exact isNone_lookupEntry_append_singleton acc tn y t
                  rw [hfe]

/-! ## The top-level copy loop -/

lemma copyRulesFromRepo_lookup :
    ∀ (re : List (String × FsTree)) (teams : List String)
      (destEs : List (String × FsTree)) (n : String),
      distinctKeys (re.map Prod.fst) = true →
      (∀ m, (lookupEntry re m).isSome = true → lookupEntry destEs m = none) →
      lookupEntry (copyRulesFromRepo re teams destEs).1 n =
        (match lookupEntry re n with
         | some t =>
             if strStartsWith n "." || !t.isDir then none
             else if strStartsWith n "team" then
               some (.dir (teamAccFold [] t.entries teams))
             else some t
         | none => lookupEntry destEs n) := by
  intro re
  induction re with
  | nil =>
      intro teams destEs n _ _
      rfl
  | cons e rest ih =>
      obtain ⟨name, t⟩ := e
      intro teams destEs n hdk hfresh
      rw [List.map_cons, distinctKeys_cons] at hdk
      simp only [Bool.and_eq_true] at hdk
      have hnotin : name ∉ rest.map Prod.fst := by simpa using hdk.1
      have hrl : lookupEntry rest name = none :=
        lookupEntry_eq_none_of_not_mem rest name hnotin
      have hfn : lookupEntry destEs name = none :=
        hfresh name (by simp [lookupEntry_cons])
      have hfreshRest : ∀ m, (lookupEntry rest m).isSome = true →
          (lookupEntry ((name, t) :: rest) m).isSome = true := by
        intro m hm
        by_cases hnm : name = m
        · simp [lookupEntry_cons, hnm]
        · simpa [lookupEntry_cons, hnm] using hm
      by_cases hskip : (strStartsWith name "." || !t.isDir) = true
      · have hstep : (copyRulesFromRepo ((name, t) :: rest) teams destEs).1
            = (copyRulesFromRepo rest teams destEs).1 := by
          rw [copyRulesFromRepo]
          simp [hskip]
        rw [hstep]
        rw [ih teams destEs n hdk.2 (fun m hm => hfresh m (hfreshRest m hm))]
        by_cases hn : name = n
        · subst hn
          rw [hrl, hfn]
          simp [lookupEntry_cons, hskip]
        · simp [lookupEntry_cons, hn]
      · have hskipf : (strStartsWith name "." || !t.isDir) = false := by
          simpa using hskip
        by_cases hteam : strStartsWith name "team" = true
        · have hstep : (copyRulesFromRepo ((name, t) :: rest) teams destEs).1
              = (copyRulesFromRepo rest teams
                  (copyTeamLoop (mkdirp destEs name) name t.entries teams).1).1 := by
            rw [copyRulesFromRepo]
            simp [hskipf, hteam]
          have hmk : lookupEntry (mkdirp destEs name) name = some (.dir []) :=
            lookupEntry_mkdirp_self_of_none destEs name hfn
          have htl := copyTeamLoop_lookup name t.entries teams
            (mkdirp destEs name) [] hmk
          have hunch : ∀ m, m ≠ name →
              lookupEntry (copyTeamLoop (mkdirp destEs name) name t.entries teams).1 m
                = lookupEntry destEs m := by
            intro m hm
            rw [htl.2 m hm, lookupEntry_mkdirp_ne destEs name m hm]
          have hfresh2 : ∀ m, (lookupEntry rest m).isSome = true →
              lookupEntry (copyTeamLoop (mkdirp destEs name) name t.entries teams).1 m
                = none := by
            intro m hm
            have hmem := lookupEntry_isSome_mem rest m hm
            have hmn : m ≠ name := fun he => hnotin (he ▸ hmem)
            rw [hunch m hmn]
            exact hfresh m (hfreshRest m hm)
          rw [hstep, ih teams _ n hdk.2 hfresh2]
          by_cases hn : name = n
          · subst hn
            rw [hrl]
            simp [lookupEntry_cons, hskipf, hteam, htl.1]
          · have hn2 : n ≠ name := fun he => hn he.symm
            cases hlr : lookupEntry rest n with
            | some u => simp [lookupEntry_cons, hn, hlr]
            | none => simp [lookupEntry_cons, hn, hlr, hunch n hn2]
        · have hstep : (copyRulesFromRepo ((name, t) :: rest) teams destEs).1
              = (copyRulesFromRepo rest teams (cpForce destEs name t)).1 := by
            rw [copyRulesFromRepo]
            simp [hskipf, hteam]
          have hself : lookupEntry (cpForce destEs name t) name = some t :=
            lookupEntry_cpForce_self_of_none destEs name t hfn
          have hfresh2 : ∀ m, (lookupEntry rest m).isSome = true →
              lookupEntry (cpForce destEs name t) m = none := by
            intro m hm
            have hmem := lookupEntry_isSome_mem rest m hm
            have hmn : m ≠ name := fun he => hnotin (he ▸ hmem)
            rw [lookupEntry_cpForce_ne destEs name m t hmn]
            exact hfresh m (hfreshRest m hm)
          rw [hstep, ih teams _ n hdk.2 hfresh2]
          by_cases hn : name = n
          · subst hn
            rw [hrl]
            simp [lookupEntry_cons, hskipf, hteam, hself]
          · have hn2 : n ≠ name := fun he => hn he.symm
            cases hlr : lookupEntry rest n with
            | some u => simp [lookupEntry_cons, hn, hlr]
            | none =>
                simp [lookupEntry_cons, hn, hlr,
                  lookupEntry_cpForce_ne destEs name n t hn2]

/-! ## Lemmas about the skip branch of the team loop and about logs -/

lemma wfFuel_mergeSelf (fuel : Nat) (es : List (String × FsTree))
    (h : wfFuel fuel (.dir es) = true) :
    ∀ tn u, lookupEntry es tn = some u → mergeTree u u = u := by
  intro tn u hu
  obtain ⟨k, rfl⟩ : ∃ k, fuel = k + 1 := by
    cases fuel with
    | zero => rw [wfFuel] at h; exact absurd h (by simp)
    | succ k => exact ⟨k, rfl⟩
  exact mergeTree_self k u (wfFuel_dir_child k es tn u h (lookupEntry_mem es tn u hu))

lemma selTeam_eq_some (es : List (String × FsTree)) (x : String) (p : String × FsTree)
    (h : selTeam es x = some p) :
    p.1 = x ∧ lookupEntry es x = some p.2 ∧ p.2.isDir = true := by
  unfold selTeam at h
  cases hl : lookupEntry es x with
  | none => rw [hl] at h; cases h
  | some t =>
      simp only [hl] at h
      cases ht : t.isDir with
      | false => rw [ht] at h; simp at h
      | true =>
          rw [ht] at h
          simp only [if_true] at h
          obtain rfl : (x, t) = p := Option.some.inj h
          exact ⟨rfl, rfl, ht⟩

lemma selTeam_eq_none_of_no_dir (es : List (String × FsTree)) (tn : String)
    (hmiss : ∀ u, lookupEntry es tn = some u → u.isDir = false) :
    selTeam es tn = none := by
  unfold selTeam
  cases hl : lookupEntry es tn with
  | none => rfl
  | some t => simp [hl, hmiss t hl]

lemma lookupEntry_filterMap_selTeam (es : List (String × FsTree)) (tn : String)
    (h : selTeam es tn = none) :
    ∀ l : List String, lookupEntry (l.filterMap (selTeam es)) tn = none := by
  intro l
  induction l with
  | nil => rfl
  | cons x rest ih =>
      cases hx : selTeam es x with
      | none => simp [List.filterMap_cons, hx, ih]
      | some p =>
          obtain ⟨hp1, _, _⟩ := selTeam_eq_some es x p hx
          have hxtn : x ≠ tn := by
            intro he
            rw [he] at hx
            rw [hx] at h
            cases h
          obtain ⟨pn, pt⟩ := p
          simp only at hp1
          subst hp1
          simp [List.filterMap_cons, hx, lookupEntry_cons, hxtn, ih]

lemma copyTeamLoop_logs_skip (rootName tn : String) (srcEs : List (String × FsTree))
    (hmiss : selTeam srcEs tn = none) :
    ∀ (teams : List String) (destEs : List (String × FsTree)), tn ∈ teams →
      (LogEntry.mk .info s!"Team folder not found under {rootName}/: {tn} (skipping)")
        ∈ (copyTeamLoop destEs rootName srcEs teams).2 := by
  intro teams
  induction teams with
  | nil => intro destEs h; cases h
  | cons x rest ih =>
      intro destEs h
      rcases List.mem_cons.mp h with h1 | h2
      · subst h1
        unfold selTeam at hmiss
        cases hl : lookupEntry srcEs tn with
        | none => simp [copyTeamLoop, hl]
        | some t =>
            simp only [hl] at hmiss
            cases ht : t.isDir with
            | true => rw [ht] at hmiss; simp at hmiss
            | false => simp [copyTeamLoop, hl, ht]
      · cases hl : lookupEntry srcEs x with
        | none =>
            simp only [copyTeamLoop, hl]
            exact List.mem_cons_of_mem _ (ih _ h2)
        | some t =>
            cases ht : t.isDir with
            | false =>
                simp only [copyTeamLoop, hl, ht, Bool.false_eq_true, if_false]
                exact List.mem_cons_of_mem _ (ih _ h2)
            | true =>
                simp only [copyTeamLoop, hl, ht, if_true]
                exact List.mem_cons_of_mem _ (ih _ h2)

lemma copyRulesFromRepo_logs_skip (rootName tn : String) (es : List (String × FsTree))
    (hmiss : selTeam es tn = none)
    (hdot : strStartsWith rootName "." = false)
    (hteam : strStartsWith rootName "team" = true) :
    ∀ (re : List (String × FsTree)) (teams : List String)
      (destEs : List (String × FsTree)),
      (rootName, FsTree.dir es) ∈ re → tn ∈ teams →
      (LogEntry.mk .info s!"Team folder not found under {rootName}/: {tn} (skipping)")
        ∈ (copyRulesFromRepo re teams destEs).2 := by
  intro re
  induction re with
  | nil => intro teams destEs h _; cases h
  | cons e rest ih =>
      obtain ⟨name, t⟩ := e
      intro teams destEs hmem htn
      rcases List.mem_cons.mp hmem with h1 | h2
      · obtain ⟨rfl, rfl⟩ : rootName = name ∧ FsTree.dir es = t := by
          have h1a := congrArg Prod.fst h1
          have h1b := congrArg Prod.snd h1
          exact ⟨h1a, h1b⟩
        have hskipf : (strStartsWith rootName "." || !(FsTree.dir es).isDir) = false := by
          simp [hdot, FsTree.isDir]
        simp only [copyRulesFromRepo, hskipf, Bool.false_eq_true, if_false, hteam,
          if_true]
        apply List.mem_append_left
        exact copyTeamLoop_logs_skip rootName tn es hmiss teams _ htn
      · by_cases hskip : (strStartsWith name "." || !t.isDir) = true
        · simp only [copyRulesFromRepo, hskip, if_true]
          exact ih teams destEs h2 htn
        · have hskipf : (strStartsWith name "." || !t.isDir) = false := by
            simpa using hskip
          by_cases hteam2 : strStartsWith name "team" = true
          · simp only [copyRulesFromRepo, hskipf, Bool.false_eq_true, if_false,
              hteam2, if_true]
            apply List.mem_append_right
            exact ih teams _ h2 htn
          · have hteam2f : strStartsWith name "team" = false := by simpa using hteam2
            simp only [copyRulesFromRepo, hskipf, Bool.false_eq_true, if_false,
              hteam2f]
            exact List.mem_cons_of_mem _ (ih teams _ h2 htn)

lemma copyTeamLoop_logs_info (rootName : String) (srcEs : List (String × FsTree)) :
    ∀ (teams : List String) (destEs : List (String × FsTree)) (l : LogEntry),
      l ∈ (copyTeamLoop destEs rootName srcEs teams).2 → l.level = .info := by
  intro teams
  induction teams with
  | nil => intro destEs l h; cases h
  | cons x rest ih =>
      intro destEs l h
      cases hl : lookupEntry srcEs x with
      | none =>
          simp only [copyTeamLoop, hl] at h
          rcases List.mem_cons.mp h with h1 | h2
          · rw [h1]
          · exact ih _ l h2
      | some t =>
          cases ht : t.isDir with
          | false =>
              simp only [copyTeamLoop, hl, ht, Bool.false_eq_true, if_false] at h
              rcases List.mem_cons.mp h with h1 | h2
              · rw [h1]
              · exact ih _ l h2
          | true =>
              simp only [copyTeamLoop, hl, ht, if_true] at h
              rcases List.mem_cons.mp h with h1 | h2
              · rw [h1]
              · exact ih _ l h2

lemma copyRulesFromRepo_logs_info :
    ∀ (re : List (String × FsTree)) (teams : List String)
      (destEs : List (String × FsTree)) (l : LogEntry),
      l ∈ (copyRulesFromRepo re teams destEs).2 → l.level = .info := by
  intro re
  induction re with
  | nil => intro teams destEs l h; cases h
  | cons e rest ih =>
      obtain ⟨name, t⟩ := e
      intro teams destEs l h
      by_cases hskip : (strStartsWith name "." || !t.isDir) = true
      · simp only [copyRulesFromRepo, hskip, if_true] at h
        exact ih teams destEs l h
      · have hskipf : (strStartsWith name "." || !t.isDir) = false := by
          simpa using hskip
        by_cases hteam2 : strStartsWith name "team" = true
        · simp only [copyRulesFromRepo, hskipf, Bool.false_eq_true, if_false,
            hteam2, if_true] at h
          rcases List.mem_append.mp h with h1 | h2
          · exact copyTeamLoop_logs_info name t.entries teams _ l h1
          · exact ih teams _ l h2
        · have hteam2f : strStartsWith name "team" = false := by simpa using hteam2
          simp only [copyRulesFromRepo, hskipf, Bool.false_eq_true, if_false,
            hteam2f] at h
          rcases List.mem_cons.mp h with h1 | h2
          · rw [h1]
          · exact ih teams _ l h2

/-! ## Claim theorems -/

/-- C1: a successful mirror run (`FileSyncer.syncFiles` /
`copyRulesFromRepo`) over a well-formed source produces a destination
whose top-level entries are exactly: for each non-hidden top-level source
directory whose name starts with `team`, a directory of the same name
containing precisely those selected-team subtrees that exist (as
directories) under it in the source, each copied recursively in full; for
every other non-hidden top-level source directory, a full unfiltered
recursive copy of its subtree; hidden and non-directory top-level entries
are never copied.  Stated as: the destination lookup of every name agrees
with the spec-side description `specTopEntry`. -/
theorem c1_mirror_top_level_exact (fuel : Nat) (re : List (String × FsTree))
    (teams : List String) (pth : String) (d : Option FsTree) (n : String)
    (hwf : wfFuel fuel (.dir re) = true) :
    lookupEntry (destEntriesOf (syncFiles noFaults re teams pth d)) n
      = specTopEntry re teams n := by
  obtain ⟨m, rfl⟩ : ∃ m, fuel = m + 1 := by
    cases fuel with
    | zero => rw [wfFuel] at hwf; exact absurd hwf (by simp)
    | succ m => exact ⟨m, rfl⟩
  have hdk := wfFuel_dir_distinct m re hwf
  have hres : destEntriesOf (syncFiles noFaults re teams pth d)
      = (copyRulesFromRepo re teams []).1 := rfl
  rw [hres, copyRulesFromRepo_lookup re teams [] n hdk (fun _ _ => rfl)]
  cases hl : lookupEntry re n with
  | none => simp [specTopEntry, hl, lookupEntry_nil]
  | some t =>
      cases t with
      | file c => simp [specTopEntry, hl, FsTree.isDir]
      | dir es =>
          by_cases hdot : strStartsWith n "." = true
          · simp [specTopEntry, hl, hdot, FsTree.isDir]
          · by_cases hteam : strStartsWith n "team" = true
            · have hwfes : wfFuel m (.dir es) = true :=
                wfFuel_dir_child m re n (.dir es) hwf (lookupEntry_mem re n _ hl)
              have hmself : ∀ tn u, lookupEntry es tn = some u → mergeTree u u = u := by
                intro tn u hu
                obtain ⟨k, rfl⟩ : ∃ k, m = k + 1 := by
                  cases m with
                  | zero => rw [wfFuel] at hwfes; exact absurd hwfes (by simp)
                  | succ k => exact ⟨k, rfl⟩
                exact mergeTree_self k u
                  (wfFuel_dir_child k es tn u hwfes (lookupEntry_mem es tn u hu))
              simp only [specTopEntry, hl, hdot, hteam, FsTree.isDir, FsTree.entries,
                Bool.not_true, Bool.or_false, Bool.false_or, if_true,
                Bool.false_eq_true, if_false]
              rw [teamAccFold_spec es hmself teams []
                (by intro tn u h; rw [lookupEntry_nil] at h; cases h)]
              simp [specSelectedTeams, lookupEntry_nil]
            · simp [specTopEntry, hl, hdot, hteam, FsTree.isDir]

/-- C1 witness: the theorem applied to the sample repository, selection
`cloud-infra`, at the name `team`, with the well-formedness hypothesis
discharged by computation. -/
theorem c1_mirror_top_level_exact_witness :
    wfFuel 4 (FsTree.dir sampleRepo) = true ∧
    lookupEntry (destEntriesOf (syncFiles noFaults sampleRepo ["cloud-infra"]
        "/ws/.cursor/rules/remote" none)) "team"
      = specTopEntry sampleRepo ["cloud-infra"] "team" :=
  ⟨by decide,
   c1_mirror_top_level_exact 4 sampleRepo ["cloud-infra"]
     "/ws/.cursor/rules/remote" none "team" (by decide)⟩

/-- C2 counterexample: when the recursive deletion of the destination
fails with `EPERM`, `removeDestination` swallows the failure, so the run
still reports success — yet the stale file `team/blue-team/old.mdc` from
the previous sync, which is not part of the current mirror, survives.
This refutes the claim that after *every* successful run no stale entry
remains because the destination is first deleted. -/
theorem c2_counterexample :
    (syncFiles ⟨some FsCode.EPERM, none⟩ sampleRepo ["cloud-infra"] "/d" staleDest).result
        = Except.ok () ∧
    pathExistsO staleDest ["team", "blue-team", "old.mdc"] = true ∧
    pathExistsO (some (FsTree.dir (copyRulesFromRepo sampleRepo ["cloud-infra"] []).1))
        ["team", "blue-team", "old.mdc"] = false ∧
    pathExistsO (syncFiles ⟨some FsCode.EPERM, none⟩ sampleRepo ["cloud-infra"] "/d"
        staleDest).dest ["team", "blue-team", "old.mdc"] = true :=
  ⟨rfl, rfl, rfl, rfl⟩

/-- C2 amended: when the recursive deletion of the destination succeeds
(the normal path — the run recreates the destination from empty), a path
that is not part of the current mirror does not exist in the destination
after the run, whatever existed there before. -/
theorem c2_preclean_no_stale_content (re : List (String × FsTree))
    (teams : List String) (pth : String) (d : Option FsTree) (p : List String)
    (_hstale : pathExistsO d p = true)
    (hnotmirror : pathExistsO (some (FsTree.dir (copyRulesFromRepo re teams []).1)) p
        = false) :
    pathExistsO (syncFiles noFaults re teams pth d).dest p = false := by
  have hdest : (syncFiles noFaults re teams pth d).dest
      = some (FsTree.dir (copyRulesFromRepo re teams []).1) := rfl
  rw [hdest]
  exact hnotmirror

/-- C2 witness: the stale file `team/blue-team/old.mdc` is present before
the run, absent from the mirror, and gone after a fault-free run. -/
theorem c2_preclean_no_stale_content_witness :
    pathExistsO staleDest ["team", "blue-team", "old.mdc"] = true ∧
    pathExistsO (some (FsTree.dir (copyRulesFromRepo sampleRepo ["cloud-infra"] []).1))
        ["team", "blue-team", "old.mdc"] = false ∧
    pathExistsO (syncFiles noFaults sampleRepo ["cloud-infra"] "/d" staleDest).dest
        ["team", "blue-team", "old.mdc"] = false :=
  ⟨rfl, rfl,
   c2_preclean_no_stale_content sampleRepo ["cloud-infra"] "/d" staleDest
     ["team", "blue-team", "old.mdc"] rfl rfl⟩

/-- C5 counterexample: the recursive deletion fails with `EACCES` (not
`ENOENT`), yet the mirror does not fail with a `FilesystemError` — it
logs a warning, continues into the copy phase (the copied file
`general/tone.mdc` is present afterwards) and reports success. -/
theorem c5_counterexample :
    (syncFiles ⟨some FsCode.EACCES, none⟩ sampleRepo ["cloud-infra"] "/rules"
        notesDest).result = Except.ok () ∧
    (LogEntry.mk .warn "Failed to remove destination directory")
        ∈ (syncFiles ⟨some FsCode.EACCES, none⟩ sampleRepo ["cloud-infra"] "/rules"
            notesDest).logs ∧
    pathExistsO (syncFiles ⟨some FsCode.EACCES, none⟩ sampleRepo ["cloud-infra"] "/rules"
        notesDest).dest ["general", "tone.mdc"] = true :=
  ⟨rfl, by decide, rfl⟩

/-- C5 amended: a failure of the destination deletion never aborts the
mirror — `removeDestination` swallows it, logging a warning when the code
is not `ENOENT`, and the run continues into the copy phase and reports
success when the remaining operations succeed.  Only an uncaught failure
of the recreation step (`fs.mkdir`) aborts the run, with a
`FilesystemError` naming the destination path. -/
theorem c5_removal_failure_swallowed (c : FsCode) (re : List (String × FsTree))
    (teams : List String) (pth : String) (d : Option FsTree) :
    (syncFiles ⟨some c, none⟩ re teams pth d).result = Except.ok () ∧
    (c ≠ FsCode.ENOENT →
      (LogEntry.mk .warn "Failed to remove destination directory")
        ∈ (syncFiles ⟨some c, none⟩ re teams pth d).logs) ∧
    (∀ mc : FsCode, (syncFiles ⟨some c, some mc⟩ re teams pth d).result
        = Except.error ⟨mc, pth⟩) := by
  refine ⟨rfl, ?_, fun mc => rfl⟩
  intro hc
  simp [syncFiles, removeDestination, hc]

/-- C5 witness: the amended theorem applied at `EPERM`, with the inner
hypothesis discharged by computation. -/
theorem c5_removal_failure_swallowed_witness :
    (syncFiles ⟨some FsCode.EPERM, none⟩ sampleRepo ["cloud-infra"] "/rules"
        notesDest).result = Except.ok () ∧
    (LogEntry.mk .warn "Failed to remove destination directory")
        ∈ (syncFiles ⟨some FsCode.EPERM, none⟩ sampleRepo ["cloud-infra"] "/rules"
            notesDest).logs :=
  ⟨(c5_removal_failure_swallowed FsCode.EPERM sampleRepo ["cloud-infra"] "/rules"
      notesDest).1,
   (c5_removal_failure_swallowed FsCode.EPERM sampleRepo ["cloud-infra"] "/rules"
      notesDest).2.1 (by decide)⟩

/-- C9: mirroring the same source with the same selection twice in a row
(no source changes, fault-free runs) yields a byte-identical destination
tree: the destination of the second run equals the destination the first
run produced. -/
theorem c9_mirror_idempotent (re : List (String × FsTree)) (teams : List String)
    (pth : String) (d d1 : Option FsTree)
    (h : (syncFiles noFaults re teams pth d).dest = d1) :
    (syncFiles noFaults re teams pth d1).dest = d1 := by
  have h0 : (syncFiles noFaults re teams pth d).dest
      = some (FsTree.dir (copyRulesFromRepo re teams []).1) := rfl
  have h1 : (syncFiles noFaults re teams pth d1).dest
      = some (FsTree.dir (copyRulesFromRepo re teams []).1) := rfl
  rw [h1, ← h, h0]

/-- C9 witness: two consecutive runs over the sample repository starting
from a stale destination. -/
theorem c9_mirror_idempotent_witness :
    (syncFiles noFaults sampleRepo ["cloud-infra"] "/d" staleDest).dest = sampleMirror ∧
    (syncFiles noFaults sampleRepo ["cloud-infra"] "/d" sampleMirror).dest = sampleMirror :=
  ⟨rfl, c9_mirror_idempotent sampleRepo ["cloud-infra"] "/d" staleDest sampleMirror rfl⟩

/-- C3 counterexample: after a successful sync (destination
`sampleMirror`), a subsequent attempt in which repository acquisition
succeeds but the mirror phase fails (the destination recreation raises
`EACCES` after the deletion already ran) returns an error *and* leaves the
destination changed — `general/tone.mdc` existed before the failed attempt
and no longer does.  The destination is therefore not byte-identical after
every failed attempt. -/
theorem c3_counterexample :
    (syncRules none none none noFaults sampleCache ["cloud-infra"] "/d" none).result
        = Except.ok () ∧
    (syncRules none none none noFaults sampleCache ["cloud-infra"] "/d" none).dest
        = sampleMirror ∧
    (syncRules none none none ⟨none, some FsCode.EACCES⟩ sampleCache ["cloud-infra"]
        "/d" sampleMirror).result = Except.error "Filesystem error at /d" ∧
    pathExistsO sampleMirror ["general", "tone.mdc"] = true ∧
    pathExistsO (syncRules none none none ⟨none, some FsCode.EACCES⟩ sampleCache
        ["cloud-infra"] "/d" sampleMirror).dest ["general", "tone.mdc"] = false :=
  ⟨rfl, rfl, rfl, rfl, rfl⟩

/-- C3 amended: when a sync attempt fails during repository acquisition
(lock, clone or fetch failure inside `GitManager.ensureRepository`) —
before the mirror phase starts — the destination tree is untouched, the
error propagates out of `syncRules` unchanged, and the non-first-attempt
treatment of the failure is a non-blocking warning.  A failure inside the
mirror phase itself may leave the destination altered (see the
counterexample). -/
theorem c3_acquisition_failure_preserves_dest (le ce fe : Option String)
    (f : FsFaults) (cache : Option FsTree) (teams : List String) (pth : String)
    (d : Option FsTree) (e : String)
    (h : (ensureRepository le ce fe cache).1 = Except.error e) :
    (syncRules le ce fe f cache teams pth d).dest = d ∧
    (syncRules le ce fe f cache teams pth d).result = Except.error e ∧
    (handleSyncErrorSteady e).isBlocking = false := by
  refine ⟨?_, ?_, rfl⟩ <;> simp [syncRules, h]

/-- C3 witness: a lock-acquisition failure with a previously mirrored
destination in place. -/
theorem c3_acquisition_failure_preserves_dest_witness :
    (ensureRepository (some "timeout") none none sampleCache).1
        = Except.error "Failed to acquire lock: timeout" ∧
    (syncRules (some "timeout") none none noFaults sampleCache ["cloud-infra"] "/d"
        sampleMirror).dest = sampleMirror ∧
    (syncRules (some "timeout") none none noFaults sampleCache ["cloud-infra"] "/d"
        sampleMirror).result = Except.error "Failed to acquire lock: timeout" :=
  ⟨rfl,
   (c3_acquisition_failure_preserves_dest (some "timeout") none none noFaults
      sampleCache ["cloud-infra"] "/d" sampleMirror
      "Failed to acquire lock: timeout" rfl).1,
   (c3_acquisition_failure_preserves_dest (some "timeout") none none noFaults
      sampleCache ["cloud-infra"] "/d" sampleMirror
      "Failed to acquire lock: timeout" rfl).2.1⟩

/-- C4 counterexample: in a session whose first attempt fails, choosing
Retry and failing again produces a *second* blocking modal — the failure
of the second attempt of the session receives blocking treatment, so a
blocking modal is not reserved for the first attempt. -/
theorem c4_counterexample :
    initialSyncSession true [some "network down", some "network down"]
        [FirstFailAction.retry]
      = [Notice.blockingErrorModal "Failed to sync AI rules: network down",
         Notice.blockingErrorModal "Failed to sync AI rules: network down"] ∧
    ((initialSyncSession true [some "network down", some "network down"]
        [FirstFailAction.retry]).drop 1).any Notice.isBlocking = true :=
  ⟨rfl, rfl⟩

/-- C4 amended: blocking treatment is tied to the call path, not to a
per-session attempt counter: every failed attempt reached through
`performInitialSync` — including every attempt reached by choosing Retry
from the failure modal — produces the blocking modal; a failure of a sync
triggered by a configuration change or the periodic timer
(`handleSyncError` with `isFirstTime = false`) always produces the
non-blocking warning; and on the `performInitialSetup` path a
repository-access failure is routed to the non-blocking reconfiguration
warning instead of the modal, so not even the first attempt of a session
always blocks. -/
theorem c4_blocking_follows_call_path (hc : Bool) (msgs : List String) :
    initialSyncSession hc (msgs.map some) (msgs.map fun _ => FirstFailAction.retry)
      = msgs.map (fun m => Notice.blockingErrorModal ("Failed to sync AI rules: " ++ m)) ∧
    (∀ m : String, (handleSyncErrorSteady m).isBlocking = false) ∧
    (∀ m : String, isRepoAccessError m = true →
      (performInitialSetupFailureNotice m).isBlocking = false) := by
  refine ⟨?_, fun _ => rfl, ?_⟩
  · induction msgs with
    | nil => rfl
    | cons m rest ih =>
        simp only [List.map_cons, initialSyncSession]
        rw [ih]
  · intro m h
    unfold performInitialSetupFailureNotice
    rw [h]
    rfl

/-- C4 witness: the amended theorem at a concrete two-failure retry chain,
and its setup-path clause at a concrete clone failure. -/
theorem c4_blocking_follows_call_path_witness :
    (initialSyncSession true [some "a", some "b"]
        [FirstFailAction.retry, FirstFailAction.retry]
      = [Notice.blockingErrorModal "Failed to sync AI rules: a",
         Notice.blockingErrorModal "Failed to sync AI rules: b"]) ∧
    (performInitialSetupFailureNotice "Git clone failed: x").isBlocking = false :=
  ⟨(c4_blocking_follows_call_path true ["a", "b"]).1,
   (c4_blocking_follows_call_path true ["a", "b"]).2.2 "Git clone failed: x"
     (by decide)⟩

/-- C6 counterexample: two first-attempt failures with different causes
receive different treatment — a lock-contention failure gets the blocking
modal while a clone failure gets the non-blocking reconfiguration warning
of `offerReconfiguration` — so the blocking/non-blocking choice does
depend on the error kind. -/
theorem c6_counterexample :
    performInitialSetupFailureNotice "Failed to acquire lock: timeout"
      = Notice.blockingErrorModal
          "Failed to sync AI rules: Failed to acquire lock: timeout" ∧
    performInitialSetupFailureNotice "Git clone failed: could not resolve host"
      = Notice.warningMessage
          "Failed to access AI rules repository: Git clone failed: could not resolve host" ∧
    (Notice.blockingErrorModal
        "Failed to sync AI rules: Failed to acquire lock: timeout").isBlocking = true ∧
    (Notice.warningMessage
        "Failed to access AI rules repository: Git clone failed: could not resolve host").isBlocking
      = false := by
  refine ⟨by decide, by decide, rfl, rfl⟩

/-- C6 amended: on the initial-setup path, the user-visible treatment of a
first-attempt failure depends on the error kind through the
repository-access message test: two errors with the same classification
get the same blocking behaviour, errors not matching the repository-access
fragments get the blocking modal, matching ones get the non-blocking
reconfiguration warning; failures of later (non-first) attempts are
treated uniformly, with a non-blocking warning regardless of kind. -/
theorem c6_first_treatment_depends_on_kind :
    (∀ m1 m2 : String, isRepoAccessError m1 = isRepoAccessError m2 →
      (performInitialSetupFailureNotice m1).isBlocking
        = (performInitialSetupFailureNotice m2).isBlocking) ∧
    (∀ m : String, isRepoAccessError m = false →
      performInitialSetupFailureNotice m
        = Notice.blockingErrorModal ("Failed to sync AI rules: " ++ m)) ∧
    (∀ m : String, isRepoAccessError m = true →
      performInitialSetupFailureNotice m
        = Notice.warningMessage ("Failed to access AI rules repository: " ++ m)) ∧
    (∀ m : String, (handleSyncErrorSteady m).isBlocking = false) := by
  refine ⟨?_, ?_, ?_, fun _ => rfl⟩
  · intro m1 m2 h
    unfold performInitialSetupFailureNotice
    rw [h]
    cases isRepoAccessError m2 <;> rfl
  · intro m h
    unfold performInitialSetupFailureNotice
    rw [h]
    rfl
  · intro m h
    unfold performInitialSetupFailureNotice
    rw [h]
    rfl

/-- C6 witness: the amended theorem applied to two lock-contention
messages (same classification, same treatment) and to each branch. -/
theorem c6_first_treatment_depends_on_kind_witness :
    isRepoAccessError "Failed to acquire lock: a"
        = isRepoAccessError "Failed to acquire lock: b" ∧
    (performInitialSetupFailureNotice "Failed to acquire lock: a").isBlocking
        = (performInitialSetupFailureNotice "Failed to acquire lock: b").isBlocking ∧
    performInitialSetupFailureNotice "Failed to acquire lock: a"
        = Notice.blockingErrorModal
            "Failed to sync AI rules: Failed to acquire lock: a" ∧
    performInitialSetupFailureNotice "Authentication failed for origin"
        = Notice.warningMessage
            "Failed to access AI rules repository: Authentication failed for origin" :=
  ⟨by decide,
   c6_first_treatment_depends_on_kind.1 "Failed to acquire lock: a"
     "Failed to acquire lock: b" (by decide),
   c6_first_treatment_depends_on_kind.2.1 "Failed to acquire lock: a" (by decide),
   c6_first_treatment_depends_on_kind.2.2.1 "Authentication failed for origin"
     (by decide)⟩

/-- C7: resolving the first-failure modal with Work-with-local-copy: when
a cached snapshot directory exists, the mirror engine is invoked directly
against it (no repository access is involved — `workWithLocalCopy` takes
no git parameters) and the resulting destination is exactly what a direct
`syncFiles` mirror of that snapshot produces, with no warning notice; when
no cached snapshot exists (path absent, or present as a file), no mirror
runs — the destination is unchanged — and the non-blocking
`No rules available` warning is surfaced instead of an error. -/
theorem c7_work_with_local_copy (cacheEs : List (String × FsTree))
    (teams : List String) (pth : String) (d : Option FsTree) (f2 : FsFaults)
    (c : String) :
    (workWithLocalCopy noFaults (some (.dir cacheEs)) teams pth d).dest
        = (syncFiles noFaults cacheEs teams pth d).dest ∧
    (workWithLocalCopy noFaults (some (.dir cacheEs)) teams pth d).dest
        = some (FsTree.dir (copyRulesFromRepo cacheEs teams []).1) ∧
    (workWithLocalCopy noFaults (some (.dir cacheEs)) teams pth d).notices = [] ∧
    hasExistingContent (none : Option FsTree) = false ∧
    (workWithLocalCopy f2 none teams pth d).dest = d ∧
    (workWithLocalCopy f2 none teams pth d).notices
        = [Notice.warningMessage "No rules available; working without rules"] ∧
    hasExistingContent (some (FsTree.file c)) = false ∧
    (workWithLocalCopy f2 (some (.file c)) teams pth d).dest = d ∧
    (workWithLocalCopy f2 (some (.file c)) teams pth d).notices
        = [Notice.warningMessage "No rules available; working without rules"] ∧
    (Notice.warningMessage "No rules available; working without rules").isBlocking
        = false :=
  ⟨rfl, rfl, rfl, rfl, rfl, rfl, rfl, rfl, rfl, rfl⟩

/-- C7 witness: the theorem applied to the sample cache and to an absent
cache. -/
theorem c7_work_with_local_copy_witness :
    (workWithLocalCopy noFaults sampleCache ["cloud-infra"] "/d" staleDest).dest
        = (syncFiles noFaults sampleRepo ["cloud-infra"] "/d" staleDest).dest ∧
    (workWithLocalCopy ⟨none, some FsCode.EACCES⟩ none ["cloud-infra"] "/d"
        staleDest).dest = staleDest ∧
    (workWithLocalCopy ⟨none, some FsCode.EACCES⟩ none ["cloud-infra"] "/d"
        staleDest).notices
      = [Notice.warningMessage "No rules available; working without rules"] :=
  have h := c7_work_with_local_copy sampleRepo ["cloud-infra"] "/d" staleDest
    ⟨none, some FsCode.EACCES⟩ "x"
  ⟨h.1, h.2.2.2.2.1, h.2.2.2.2.2.1⟩

/-- C8: a selected team identifier with no matching subdirectory under a
team-prefixed source directory does not make the mirror fail: the run
still succeeds, the destination has no entry for that team under the team
root, the absence is reported by an informational log line, and no
error-level log line is produced by the run. -/
theorem c8_missing_team_nonfatal (fuel : Nat) (re : List (String × FsTree))
    (teams : List String) (pth : String) (d : Option FsTree)
    (rootName tn : String) (es : List (String × FsTree))
    (hwf : wfFuel fuel (.dir re) = true)
    (hroot : lookupEntry re rootName = some (.dir es))
    (hdot : strStartsWith rootName "." = false)
    (hteam : strStartsWith rootName "team" = true)
    (htn : tn ∈ teams)
    (hmiss : ∀ u, lookupEntry es tn = some u → u.isDir = false) :
    (syncFiles noFaults re teams pth d).result = Except.ok () ∧
    pathExistsO (syncFiles noFaults re teams pth d).dest [rootName, tn] = false ∧
    (LogEntry.mk .info s!"Team folder not found under {rootName}/: {tn} (skipping)")
        ∈ (syncFiles noFaults re teams pth d).logs ∧
    (∀ l, l ∈ (syncFiles noFaults re teams pth d).logs → l.level ≠ LogLevel.error) := by
  obtain ⟨m, rfl⟩ : ∃ m, fuel = m + 1 := by
    cases fuel with
    | zero => rw [wfFuel] at hwf; exact absurd hwf (by simp)
    | succ m => exact ⟨m, rfl⟩
  have hdk := wfFuel_dir_distinct m re hwf
  have hsel : selTeam es tn = none := selTeam_eq_none_of_no_dir es tn hmiss
  have hlogs : (syncFiles noFaults re teams pth d).logs
      = (LogEntry.mk .info "Starting file sync" ::
          [⟨.debug, "Removing destination directory entirely"⟩,
           ⟨.debug, "Destination directory removed"⟩])
        ++ (copyRulesFromRepo re teams []).2
        ++ [⟨.info, "File sync completed"⟩] := rfl
  refine ⟨rfl, ?_, ?_, ?_⟩
  · have hdest : (syncFiles noFaults re teams pth d).dest
        = some (FsTree.dir (copyRulesFromRepo re teams []).1) := rfl
    rw [hdest]
    have hlook := copyRulesFromRepo_lookup re teams [] rootName hdk (fun _ _ => rfl)
    rw [hroot] at hlook
    have hskipf : (strStartsWith rootName "." || !(FsTree.dir es).isDir) = false := by
      simp [hdot, FsTree.isDir]
    simp only [hskipf, Bool.false_eq_true, if_false, hteam, if_true,
      FsTree.entries] at hlook
    have hmself := wfFuel_mergeSelf m es
      (wfFuel_dir_child m re rootName (.dir es) hwf (lookupEntry_mem re rootName _ hroot))
    have hteamfold : teamAccFold [] es teams = specSelectedTeams es teams := by
      rw [teamAccFold_spec es hmself teams []
        (by intro a b hb; rw [lookupEntry_nil] at hb; cases hb)]
      simp [specSelectedTeams, lookupEntry_nil]
    rw [hteamfold] at hlook
    have hnone : lookupEntry (specSelectedTeams es teams) tn = none := by
      unfold specSelectedTeams
      exact lookupEntry_filterMap_selTeam es tn hsel _
    simp only [pathExistsO, FsTree.lookupPath, hlook, hnone, Option.isSome]
  · rw [hlogs]
    have hm := copyRulesFromRepo_logs_skip rootName tn es hsel hdot hteam re teams []
      (lookupEntry_mem re rootName _ hroot) htn
    exact List.mem_append_left _ (List.mem_append_right _ hm)
  · intro l hl
    rw [hlogs] at hl
    rcases List.mem_append.mp hl with h1 | h2
    · rcases List.mem_append.mp h1 with h3 | h4
      · rcases List.mem_cons.mp h3 with h5 | h6
        · rw [h5]; decide
        · rcases List.mem_cons.mp h6 with h7 | h8
          · rw [h7]; decide
          · rcases List.mem_cons.mp h8 with h9 | h10
            · rw [h9]; decide
            · cases h10
      · have hi := copyRulesFromRepo_logs_info re teams [] l h4
        rw [hi]
        decide
    · rcases List.mem_cons.mp h2 with h5 | h6
      · rw [h5]; decide
      · cases h6

/-- C8 witness: selecting `missing-team` (which has no folder under
`team/`) together with `cloud-infra` against the sample repository. -/
theorem c8_missing_team_nonfatal_witness :
    (syncFiles noFaults sampleRepo ["cloud-infra", "missing-team"] "/d" none).result
        = Except.ok () ∧
    pathExistsO (syncFiles noFaults sampleRepo ["cloud-infra", "missing-team"] "/d"
        none).dest ["team", "missing-team"] = false ∧
    (LogEntry.mk .info "Team folder not found under team/: missing-team (skipping)")
        ∈ (syncFiles noFaults sampleRepo ["cloud-infra", "missing-team"] "/d" none).logs :=
  have h := c8_missing_team_nonfatal 4 sampleRepo ["cloud-infra", "missing-team"]
    "/d" none "team" "missing-team"
    [("cloud-infra", .dir [("general.mdc", .file "cloud")]),
     ("blue-team", .dir [("general.mdc", .file "blue")])]
    (by decide) rfl (by decide) (by decide) (by decide)
    (fun u hu => nomatch hu)
  ⟨h.1, h.2.1, h.2.2.1⟩

/-- C10: once a clone exists in the cache (`.git` present under the
repository path), a failing `git fetch` inside `GitManager.ensureRepository`
does not fail the sync attempt: the fetch error is caught, a warning about
using the cached copy is logged, `ensureRepository` succeeds with the
cached snapshot, and the whole `syncRules` attempt succeeds, mirroring the
stale snapshot — so the failure-recovery path is never entered. -/
theorem c10_fetch_failure_falls_back_to_cache (fe : String) (ce : Option String)
    (cacheEs g : List (String × FsTree)) (teams : List String) (pth : String)
    (d : Option FsTree)
    (hgit : lookupEntry cacheEs ".git" = some (.dir g)) :
    (ensureRepository none ce (some fe) (some (.dir cacheEs))).1 = Except.ok () ∧
    (LogEntry.mk .warn "Using existing cached copy due to fetch failure")
        ∈ (ensureRepository none ce (some fe) (some (.dir cacheEs))).2 ∧
    (syncRules none ce (some fe) noFaults (some (.dir cacheEs)) teams pth d).result
        = Except.ok () ∧
    (syncRules none ce (some fe) noFaults (some (.dir cacheEs)) teams pth d).dest
        = some (FsTree.dir (copyRulesFromRepo cacheEs teams []).1) := by
  have hre : repositoryExists (some (.dir cacheEs)) = true := by
    simp [repositoryExists, hgit, FsTree.isDir]
  have hens : ensureRepository none ce (some fe) (some (.dir cacheEs))
      = (Except.ok (),
         [⟨.info, "Repository exists, fetching updates"⟩,
          ⟨.error, "Failed to fetch repository updates"⟩,
          ⟨.warn, "Using existing cached copy due to fetch failure"⟩]) := by
    simp [ensureRepository, fetchRepository, hre]
  refine ⟨by rw [hens], by rw [hens]; simp, ?_, ?_⟩ <;>
    simp [syncRules, hens, syncFiles, removeDestination, noFaults, Option.elim,
      FsTree.entries]

/-- C10 witness: the sample cache (which contains `.git`) with a failing
fetch. -/
theorem c10_fetch_failure_falls_back_to_cache_witness :
    (ensureRepository none none (some "network down") sampleCache).1
        = Except.ok () ∧
    (syncRules none none (some "network down") noFaults sampleCache
        ["cloud-infra"] "/d" none).result = Except.ok () ∧
    (syncRules none none (some "network down") noFaults sampleCache
        ["cloud-infra"] "/d" none).dest = sampleMirror :=
  have h := c10_fetch_failure_falls_back_to_cache "network down" none sampleRepo
    [("HEAD", .file "ref")] ["cloud-infra"] "/d" none rfl
  ⟨h.1, h.2.2.1, h.2.2.2⟩

end AiRulesSync
